import Mathlib

/-!
Verification of the sequence-and-timer state machine and score ledger of the
Uyghur typing game (`src/js/score.js`, containing both `ScoreManager` and the
game engine `UyghurTypingGame`, with callers in `src/js/ui.js`).

The development is a shallow embedding: JS numbers occurring in score handling
are modelled by `JSNum` (an integer or NaN), `localStorage` by an
`Option String`, the `ScoreManager` instance by `Ledger`, and the game engine
by an explicit state `GameState` together with an executable event interpreter
`run` that processes key presses and timer firings in deadline order.
-/

namespace UTG

/-- JS number values reachable in the score code: integers, or NaN
(produced by `parseInt` on a string without an integer prefix). -/
inductive JSNum where
  | nan : JSNum
  | int : Int → JSNum
deriving DecidableEq, Repr

/-- JS `+` on the reachable values: NaN is absorbing. -/
def jadd : JSNum → JSNum → JSNum
  | JSNum.int a, JSNum.int b => JSNum.int (a + b)
  | _, _ => JSNum.nan

/-- Decimal digit character for a digit value. -/
def digitChar : Nat → Char
  | 0 => '0'
  | 1 => '1'
  | 2 => '2'
  | 3 => '3'
  | 4 => '4'
  | 5 => '5'
  | 6 => '6'
  | 7 => '7'
  | 8 => '8'
  | 9 => '9'
  | _ => '0'

/-- Fuelled most-significant-first decimal rendering of a natural number. -/
def natToDigitsAux : Nat → Nat → List Char
  | 0, _ => []
  | fuel + 1, n =>
    if n < 10 then [digitChar n]
    else natToDigitsAux fuel (n / 10) ++ [digitChar (n % 10)]

/-- Decimal digit list of a natural number (`fuel := n + 1` always suffices). -/
def natToDigits (n : Nat) : List Char := natToDigitsAux (n + 1) n

/-- Model of JS `Number.prototype.toString` on a natural number. -/
def jsNatToString (n : Nat) : String := String.mk (natToDigits n)

/-- Model of JS `Number.prototype.toString` on an integer. -/
def jsIntToString : Int → String
  | Int.ofNat n => jsNatToString n
  | Int.negSucc n => String.mk ('-' :: natToDigits (n + 1))

/-- Model of JS `toString` on the reachable number values (`NaN` stringifies
to `"NaN"`). -/
def jsNumToString : JSNum → String
  | JSNum.nan => "NaN"
  | JSNum.int i => jsIntToString i

/-- Whitespace skipped by `parseInt`. -/
def isWs (c : Char) : Bool := c == ' ' || c == '\t' || c == '\n' || c == '\r'

/-- Numeric value of a decimal digit character. -/
def digitVal (c : Char) : Nat := c.toNat - 48

/-- Accumulating base-10 value of a digit-character list. -/
def digitsToNat (acc : Nat) : List Char → Nat
  | [] => acc
  | c :: cs => digitsToNat (acc * 10 + digitVal c) cs

/-- Parse the longest decimal-digit prefix; NaN when there is none
(the behaviour of `parseInt(s, 10)` after sign handling). -/
def parseDigits (neg : Bool) (cs : List Char) : JSNum :=
  let ds := cs.takeWhile Char.isDigit
  if ds = [] then JSNum.nan
  else JSNum.int (if neg then -(digitsToNat 0 ds : Int) else (digitsToNat 0 ds : Int))

/-- Sign handling of `parseInt`: skip leading whitespace, then consume one
optional `-`/`+`, returning the negativity flag and the remaining input. -/
def signStripped (cs : List Char) : Bool × List Char :=
  match cs.dropWhile isWs with
  | '-' :: rest => (true, rest)
  | '+' :: rest => (false, rest)
  | rest => (false, rest)

/-- Model of JS `parseInt(·, 10)` on a character list: skip leading
whitespace, optional sign, then the longest digit prefix. -/
def parseIntTen (cs : List Char) : JSNum :=
  parseDigits (signStripped cs).1 (signStripped cs).2

/-- Model of JS `parseInt(s, 10)`. -/
def parseInt10 (s : String) : JSNum := parseIntTen s.toList

/-- `ScoreManager.loadTotalScore`: `stored ? parseInt(stored, 10) : 0`.
`localStorage.getItem` yields `none` when the key is absent; the only falsy
string is the empty string. -/
def loadTotalScore (storage : Option String) : JSNum :=
  match storage with
  | none => JSNum.int 0
  | some stored => if stored = "" then JSNum.int 0 else parseInt10 stored

/-- The `ScoreManager` state: session score, cumulative score, and the
`localStorage` slot it persists to. -/
structure Ledger where
  score : Int
  totalScore : JSNum
  storage : Option String
deriving DecidableEq, Repr

/-- The `ScoreManager` constructor: `score = 0`,
`totalScore = loadTotalScore()` (display updates are cosmetic). -/
def Ledger.init (storage0 : Option String) : Ledger :=
  { score := 0, totalScore := loadTotalScore storage0, storage := storage0 }

/-- `ScoreManager.saveTotalScore`: writes `totalScore.toString()` to storage. -/
def Ledger.saveTotalScore (l : Ledger) : Ledger :=
  { l with storage := some (jsNumToString l.totalScore) }

/-- `ScoreManager.reset`: zero the session score, leave the cumulative score. -/
def Ledger.reset (l : Ledger) : Ledger := { l with score := 0 }

/-- `ScoreManager.increment`: add `points` to both counters, then persist. -/
def Ledger.increment (l : Ledger) (points : Int) : Ledger :=
  Ledger.saveTotalScore
    { l with score := l.score + points, totalScore := jadd l.totalScore (JSNum.int points) }

/-- `ScoreManager.getScore`. -/
def Ledger.getScore (l : Ledger) : Int := l.score

/-- `ScoreManager.getTotalScore`. -/
def Ledger.getTotalScore (l : Ledger) : JSNum := l.totalScore

/-- The narrow interface of the score ledger, as operation labels. -/
inductive SMOp where
  | increment (points : Int)
  | reset
  | getScore
  | getTotalScore
deriving DecidableEq, Repr

/-- Apply one ledger operation (the reads have no side effect on state). -/
def applySMOp (l : Ledger) : SMOp → Ledger
  | SMOp.increment p => l.increment p
  | SMOp.reset => l.reset
  | SMOp.getScore => l
  | SMOp.getTotalScore => l

/-- Run a sequence of ledger operations. -/
def runSM (l : Ledger) (ops : List SMOp) : Ledger := ops.foldl applySMOp l

/-- Total of all increment amounts in an operation sequence. -/
def sumInc : List SMOp → Int
  | [] => 0
  | SMOp.increment p :: rest => p + sumInc rest
  | _ :: rest => sumInc rest

/-- `saveTotalScore` after construction from a given storage state: the
observable storage content of the load-then-save round trip. -/
def roundTrip (storage0 : Option String) : Option String :=
  (Ledger.saveTotalScore (Ledger.init storage0)).storage

/-- Whether a string begins (after whitespace and an optional sign) with at
least one decimal digit, i.e. whether `parseInt(·, 10)` can find a number. -/
def startsWithIntNumeral (s : String) : Bool :=
  !((signStripped s.toList).2.takeWhile Char.isDigit).isEmpty

/-! ## The game engine (`UyghurTypingGame`)

Timers are modelled explicitly: `setTimeout` arms a `PendingTimer` with an
absolute deadline and a fresh handle, `clearTimeout` removes the entry whose
handle is stored in the corresponding field, and `setInterval` creates a live
entry in `intervals` that stays until some `clearInterval` names its handle.
The per-call closure variable `flickered` of `startTimer` is modelled by the
set `firedRounds` of rounds whose warning timeout has fired.  Purely visual
work (DOM elements, styles, bursts, staggered fade-ins and removal timeouts)
is not modelled; the externally visible effects that matter to the spec are
recorded in `log`.  Random sequence generation is modelled by letting the
environment supply the session's sequence at `start`. -/

/-- The two timers `startTimer` arms per position. -/
inductive TKind where
  | warn
  | fall
deriving DecidableEq, Repr

/-- One armed `setTimeout`: handle, absolute deadline, which of the two
timers it is, the `startTimer` invocation (round) and cursor position it was
armed for, and the session counter at arming time. -/
structure PendingTimer where
  id : Nat
  deadline : Nat
  kind : TKind
  round : Nat
  pos : Nat
  session : Nat
deriving DecidableEq, Repr

/-- Observable effects recorded while running. -/
inductive Effect where
  | consumed (pos : Nat)
  | missed (pos : Nat)
  | warnStarted (pos armedSession currentSession : Nat)
deriving DecidableEq, Repr

/-- The `CONFIG` constants that drive the state machine. -/
structure Config where
  letterCount : Nat
  maxAdvance : Nat
  flickerDelay : Nat
  fallDelay : Nat
deriving DecidableEq, Repr

/-- The configuration of `src/js/score.js` (`LETTER_COUNT: 7, MAX_ADVANCE: 7,
FLICKER_DELAY: 7000, FALL_DELAY: 10000`). -/
def CONFIG : Config :=
  { letterCount := 7, maxAdvance := 7, flickerDelay := 7000, fallDelay := 10000 }

/-- The full engine-plus-ledger state.  `letterT` and `flicker` are the
`this.letterT` / `this.flicker` handle fields; `listenerOn` is whether the
keydown handler is attached; `scoreMgrAttached` is whether `this.scoreManager`
is set (`ui.js` assigns it right after construction); `hasOnGameOver` is
whether an `onGameOver` callback was supplied.  `score`, `totalScore` and
`storage` are the shared `ScoreManager`'s state.  `nextId`, `nextRound`,
`sessionCount`, `time`, `matchAdvances`, `fallAdvances`, `gameOverCalls`,
`crashed` and `log` are bookkeeping for timers, elapsed time and observable
outcomes. -/
structure GameState where
  seq : List Char
  idx : Nat
  letterT : Option Nat
  flicker : Option Nat
  listenerOn : Bool
  hasOnGameOver : Bool
  scoreMgrAttached : Bool
  score : Int
  totalScore : JSNum
  storage : Option String
  pending : List PendingTimer
  intervals : List (Nat × Nat)
  firedRounds : List Nat
  nextId : Nat
  nextRound : Nat
  sessionCount : Nat
  time : Nat
  matchAdvances : Nat
  fallAdvances : Nat
  gameOverCalls : List Int
  crashed : Bool
  log : List Effect
deriving DecidableEq, Repr

/-- `clearTimeout(h)`: removes the armed timeout whose handle is `h`
(a no-op on an undefined or stale handle). -/
def clearTimeoutH (h : Option Nat) (pending : List PendingTimer) : List PendingTimer :=
  match h with
  | none => pending
  | some i => pending.filter (fun p => decide (p.id ≠ i))

/-- `clearInterval(h)`: removes the live interval whose handle is `h`. -/
def clearIntervalH (h : Option Nat) (ivs : List (Nat × Nat)) : List (Nat × Nat) :=
  match h with
  | none => ivs
  | some i => ivs.filter (fun iv => decide (iv.1 ≠ i))

/-- `UyghurTypingGame.resetState`: clear sequence and cursor,
`clearTimeout(this.letterT)`, `clearInterval(this.flicker)`.  The handle
fields themselves are not nulled by the source. -/
def resetState (s : GameState) : GameState :=
  { s with seq := [], idx := 0,
           pending := clearTimeoutH s.letterT s.pending,
           intervals := clearIntervalH s.flicker s.intervals }

/-- `this.scoreManager?.increment(10)`: skipped entirely when no score
manager is attached; otherwise adds to both counters and persists
(`ScoreManager.increment` calls `saveTotalScore`). -/
def smIncrement (points : Int) (s : GameState) : GameState :=
  if s.scoreMgrAttached then
    let t := jadd s.totalScore (JSNum.int points)
    { s with score := s.score + points, totalScore := t,
             storage := some (jsNumToString t) }
  else s

/-- `UyghurTypingGame.startTimer`: return if the cursor is past the sequence;
otherwise arm the flicker (warning) timeout and then the fall (expiry)
timeout.  The source assigns `this.letterT` twice in a row: the warning
handle is stored first and immediately overwritten by the fall handle, so
only the fall handle remains stored. -/
def startTimer (cfg : Config) (s : GameState) : GameState :=
  if s.idx ≥ s.seq.length then s
  else
    let r := s.nextRound
    let warnTimer : PendingTimer :=
      { id := s.nextId, deadline := s.time + cfg.flickerDelay,
        kind := TKind.warn, round := r, pos := s.idx, session := s.sessionCount }
    let s1 := { s with
      pending := s.pending ++ [warnTimer],
      letterT := some s.nextId,
      nextId := s.nextId + 1, nextRound := r + 1 }
    let fallTimer : PendingTimer :=
      { id := s1.nextId, deadline := s1.time + cfg.fallDelay,
        kind := TKind.fall, round := r, pos := s1.idx, session := s1.sessionCount }
    { s1 with
      pending := s1.pending ++ [fallTimer],
      letterT := some s1.nextId,
      nextId := s1.nextId + 1 }

/-- `UyghurTypingGame.endGame`: remove the keydown listener, then
`this.onGameOver?.(this.scoreManager.getScore())`.  When a callback is
present the argument is evaluated, so a missing score manager makes the call
throw (`crashed`) instead of invoking the callback; when no callback is
present the optional call short-circuits and the argument is not evaluated. -/
def endGame (s : GameState) : GameState :=
  let s1 := { s with listenerOn := false }
  if s1.hasOnGameOver then
    if s1.scoreMgrAttached then
      { s1 with gameOverCalls := s1.gameOverCalls ++ [s1.score] }
    else { s1 with crashed := true }
  else s1

/-- `UyghurTypingGame.nextLetter`: increment the cursor; end the game at the
advance limit, otherwise shift letters (visual) and restart the timers. -/
def nextLetter (cfg : Config) (s : GameState) : GameState :=
  let s1 := { s with idx := s.idx + 1 }
  if s1.idx ≥ cfg.maxAdvance then endGame s1
  else startTimer cfg s1

/-- `UyghurTypingGame.handleCorrectKey`: `clearTimeout(this.letterT)` (which
holds the fall handle), `clearInterval(this.flicker)`, burst and fade-out
(visual, recorded as `consumed`), `scoreManager?.increment(10)`, then
`nextLetter`. -/
def handleCorrectKey (cfg : Config) (s : GameState) : GameState :=
  let s1 := { s with pending := clearTimeoutH s.letterT s.pending,
                     intervals := clearIntervalH s.flicker s.intervals,
                     log := s.log ++ [Effect.consumed s.idx] }
  let s2 := smIncrement 10 s1
  nextLetter cfg { s2 with matchAdvances := s2.matchAdvances + 1 }

/-- `UyghurTypingGame.clearRender`: remove rendered letters (visual),
`clearTimeout(this.letterT)`, `clearInterval(this.flicker)`. -/
def clearRender (s : GameState) : GameState :=
  { s with pending := clearTimeoutH s.letterT s.pending,
           intervals := clearIntervalH s.flicker s.intervals }

/-- `UyghurTypingGame.render`: `clearRender`, draw the sequence (visual),
then `startTimer`. -/
def render (cfg : Config) (s : GameState) : GameState :=
  startTimer cfg (clearRender s)

/-- `UyghurTypingGame.start`: `resetState`, attach the keydown listener,
`newSequence` (the uniform random draw is modelled by the environment
supplying `seq`), then `render`.  `sessionCount` is bookkeeping that tags the
new session. -/
def start (cfg : Config) (seq : List Char) (s : GameState) : GameState :=
  let s1 := resetState s
  let s2 := { s1 with listenerOn := true, seq := seq,
                      sessionCount := s1.sessionCount + 1 }
  render cfg s2

/-- The body of a firing timeout.  Warning timeout: set the closure flag
(`firedRounds`), start the opacity-toggling interval and store its handle in
`this.flicker`.  Fall timeout: `if (flickered) clearInterval(this.flicker)`,
the fall animation (recorded as `missed`), then `nextLetter`. -/
def runTimer (cfg : Config) (p : PendingTimer) (s : GameState) : GameState :=
  match p.kind with
  | TKind.warn =>
    { s with firedRounds := s.firedRounds ++ [p.round],
             intervals := s.intervals ++ [(s.nextId, p.pos)],
             flicker := some s.nextId,
             nextId := s.nextId + 1,
             log := s.log ++ [Effect.warnStarted p.pos p.session s.sessionCount] }
  | TKind.fall =>
    let s1 := if s.firedRounds.contains p.round
              then { s with intervals := clearIntervalH s.flicker s.intervals }
              else s
    let s2 := { s1 with log := s1.log ++ [Effect.missed p.pos],
                        fallAdvances := s1.fallAdvances + 1 }
    nextLetter cfg s2

/-- An external occurrence at wall-clock time `t` is admissible only if no
armed timeout's deadline has already passed: those timeouts fire first. -/
def timeOK (t : Nat) (s : GameState) : Bool :=
  decide (s.time ≤ t) && s.pending.all (fun p => decide (t ≤ p.deadline))

/-- A keydown at time `t`.  The handler installed by `prepareInputHandler`
runs only while attached: return if the cursor is past the sequence,
otherwise compare the key with the symbol at the cursor and call
`handleCorrectKey` on a match. -/
def stepKey (cfg : Config) (t : Nat) (k : Char) (s : GameState) : GameState :=
  if timeOK t s then
    let s1 := { s with time := t }
    if s1.listenerOn then
      if s1.idx ≥ s1.seq.length then s1
      else if k = s1.seq.getD s1.idx ' ' then handleCorrectKey cfg s1
      else s1
    else s1
  else s

/-- The event loop dispatching the armed timeout with handle `i`: it fires
only if still armed and no other armed timeout has an earlier deadline. -/
def stepFire (cfg : Config) (i : Nat) (s : GameState) : GameState :=
  match s.pending.find? (fun p => decide (p.id = i)) with
  | none => s
  | some p =>
    if s.pending.all (fun q => decide (p.deadline ≤ q.deadline)) then
      runTimer cfg p
        { s with time := p.deadline,
                 pending := s.pending.filter (fun q => decide (q.id ≠ p.id)) }
    else s

/-- Environment events: a keydown, a timeout firing, a call to `start`, and a
call to `resetState` (as `ui.js` performs on cleanup). -/
inductive Ev where
  | key (t : Nat) (k : Char)
  | fire (i : Nat)
  | start (t : Nat) (seq : List Char)
  | reset (t : Nat)
deriving DecidableEq, Repr

/-- One step of the single-threaded event loop. -/
def stepEvent (cfg : Config) (s : GameState) (e : Ev) : GameState :=
  match e with
  | Ev.key t k => stepKey cfg t k s
  | Ev.fire i => stepFire cfg i s
  | Ev.start t seq => if timeOK t s then start cfg seq { s with time := t } else s
  | Ev.reset t => if timeOK t s then resetState { s with time := t } else s

/-- Run a list of events. -/
def run (cfg : Config) (s : GameState) (evs : List Ev) : GameState :=
  evs.foldl (stepEvent cfg) s

/-- The state right after `new UyghurTypingGame(area, onGameOver?,
scoreManager?)`: `resetState` and `prepareInputHandler` have run, no listener
is attached, no timers are armed, and the shared `ScoreManager` was
constructed from `storage0`. -/
def gameInit (hasOGO smAttached : Bool) (storage0 : Option String) : GameState :=
  { seq := [], idx := 0, letterT := none, flicker := none,
    listenerOn := false, hasOnGameOver := hasOGO, scoreMgrAttached := smAttached,
    score := 0, totalScore := loadTotalScore storage0, storage := storage0,
    pending := [], intervals := [], firedRounds := [],
    nextId := 0, nextRound := 0, sessionCount := 0, time := 0,
    matchAdvances := 0, fallAdvances := 0, gameOverCalls := [],
    crashed := false, log := [] }

/-- Whether the log shows the warning toggle starting for position `p` after
position `p` was consumed by a match. -/
def warnFiredAfterConsumed (p : Nat) : List Effect → Bool
  | [] => false
  | Effect.consumed q :: rest =>
    if q = p then
      rest.any (fun e =>
        match e with
        | Effect.warnStarted q2 _ _ => decide (q2 = p)
        | _ => false)
    else warnFiredAfterConsumed p rest
  | _ :: rest => warnFiredAfterConsumed p rest

/-- Whether a warning toggle armed in one session started while a later
session was current. -/
def staleWarnFired (s : GameState) : Bool :=
  s.log.any (fun e =>
    match e with
    | Effect.warnStarted _ a c => decide (a ≠ c)
    | _ => false)

/-- Whether some armed timeout was armed in an earlier session than the
current one. -/
def hasStaleTimer (s : GameState) : Bool :=
  s.pending.any (fun p => decide (p.session ≠ s.sessionCount))

/-- Event kinds usable inside a single session. -/
def isKeyOrFire : Ev → Bool
  | Ev.key _ _ => true
  | Ev.fire _ => true
  | _ => false

/-- Timer-only events (the player never presses a key). -/
def isFire : Ev → Bool
  | Ev.fire _ => true
  | _ => false

/-- A seven-symbol session sequence used in concrete scenarios. -/
def seqA : List Char := List.replicate 7 'a'

/-! ## Facts about decimal rendering and `parseInt` -/

lemma digitVal_digitChar {d : Nat} (h : d < 10) : digitVal (digitChar d) = d := by
  interval_cases d <;> rfl

lemma isDigit_digitChar {d : Nat} (h : d < 10) : (digitChar d).isDigit = true := by
  interval_cases d <;> rfl

lemma isWs_digitChar {d : Nat} (h : d < 10) : isWs (digitChar d) = false := by
  interval_cases d <;> rfl

lemma digitChar_ne_dash {d : Nat} (h : d < 10) : digitChar d ≠ '-' := by
  interval_cases d <;> decide

lemma digitChar_ne_plus {d : Nat} (h : d < 10) : digitChar d ≠ '+' := by
  interval_cases d <;> decide

lemma natToDigitsAux_ne_nil {fuel n : Nat} (h : n < fuel) :
    natToDigitsAux fuel n ≠ [] := by
  cases fuel with
  | zero => omega
  | succ m =>
    rw [natToDigitsAux]
    split
    · simp
    · simp

lemma mem_natToDigitsAux {fuel n : Nat} {c : Char} :
    c ∈ natToDigitsAux fuel n → ∃ d, d < 10 ∧ c = digitChar d := by
  induction fuel generalizing n with
  | zero => intro h; simp [natToDigitsAux] at h
  | succ m ih =>
    rw [natToDigitsAux]
    split
    · intro h
      rcases List.mem_singleton.mp h with rfl
      exact ⟨n, by omega, rfl⟩
    · intro h
      rcases List.mem_append.mp h with h1 | h2
      · exact ih h1
      · rcases List.mem_singleton.mp h2 with rfl
        exact ⟨n % 10, Nat.mod_lt _ (by norm_num), rfl⟩

lemma takeWhile_eq_self_of_all {p : Char → Bool} :
    ∀ l : List Char, (∀ c ∈ l, p c = true) → l.takeWhile p = l := by
  intro l
  induction l with
  | nil => intro _; rfl
  | cons c cs ih =>
    intro h
    have hc : p c = true := h c (List.mem_cons_self _ _)
    simp [List.takeWhile_cons, hc, ih fun x hx => h x (List.mem_cons_of_mem _ hx)]

lemma digitsToNat_append (xs ys : List Char) :
    ∀ acc, digitsToNat acc (xs ++ ys) = digitsToNat (digitsToNat acc xs) ys := by
  induction xs with
  | nil => intro acc; rfl
  | cons c cs ih =>
    intro acc
    show digitsToNat (acc * 10 + digitVal c) (cs ++ ys) = _
    rw [ih (acc * 10 + digitVal c)]
    rfl

lemma digitsToNat_natToDigitsAux {fuel : Nat} :
    ∀ {n : Nat}, n < fuel → ∀ acc,
      digitsToNat acc (natToDigitsAux fuel n) =
        acc * 10 ^ (natToDigitsAux fuel n).length + n := by
  induction fuel with
  | zero => intro n h; omega
  | succ m ih =>
    intro n h acc
    rw [natToDigitsAux]
    by_cases hn : n < 10
    · rw [if_pos hn]
      show acc * 10 + digitVal (digitChar n) = acc * 10 ^ [digitChar n].length + n
      rw [digitVal_digitChar hn]
      show acc * 10 + n = acc * 10 ^ 1 + n
      rw [pow_one]
    · have h0 : 0 < n := by omega
      have hdiv : n / 10 < n := Nat.div_lt_self h0 (by norm_num)
      have hm : n / 10 < m := by omega
      rw [if_neg hn]
      rw [digitsToNat_append, ih hm acc]
      have hmod : n % 10 < 10 := Nat.mod_lt _ (by norm_num)
      have hlen : (natToDigitsAux m (n / 10) ++ [digitChar (n % 10)]).length
          = (natToDigitsAux m (n / 10)).length + 1 := by
        rw [List.length_append, List.length_singleton]
      rw [hlen]
      show (acc * 10 ^ (natToDigitsAux m (n / 10)).length + n / 10) * 10
          + digitVal (digitChar (n % 10))
          = acc * 10 ^ ((natToDigitsAux m (n / 10)).length + 1) + n
      rw [digitVal_digitChar hmod, pow_succ]
      have hsplit : n / 10 * 10 + n % 10 = n := by omega
      calc (acc * 10 ^ (natToDigitsAux m (n / 10)).length + n / 10) * 10 + n % 10
          = acc * (10 ^ (natToDigitsAux m (n / 10)).length * 10) +
              (n / 10 * 10 + n % 10) := by ring
        _ = acc * (10 ^ (natToDigitsAux m (n / 10)).length * 10) + n := by rw [hsplit]

lemma digitsToNat_natToDigits (n : Nat) : digitsToNat 0 (natToDigits n) = n := by
  have := @digitsToNat_natToDigitsAux (n + 1) n (by omega) 0
  simpa [natToDigits] using this

lemma natToDigits_ne_nil (n : Nat) : natToDigits n ≠ [] :=
  natToDigitsAux_ne_nil (by omega)

lemma mem_natToDigits {n : Nat} {c : Char} (h : c ∈ natToDigits n) :
    ∃ d, d < 10 ∧ c = digitChar d := mem_natToDigitsAux h

lemma signStripped_cons (c : Char) (rest : List Char) (hws : isWs c = false) :
    signStripped (c :: rest) =
      if c = '-' then (true, rest)
      else if c = '+' then (false, rest)
      else (false, c :: rest) := by
  unfold signStripped
  rw [List.dropWhile_cons]
  simp only [hws, Bool.false_eq_true, if_false]
  split
  · rename_i heq
    rcases List.cons_eq_cons.mp heq with ⟨rfl, rfl⟩
    simp
  · rename_i heq
    rcases List.cons_eq_cons.mp heq with ⟨rfl, rfl⟩
    simp
  · rename_i hne1 hne2
    have h1 : c ≠ '-' := fun h => hne1 rest (by rw [h])
    have h2 : c ≠ '+' := fun h => hne2 rest (by rw [h])
    rw [if_neg h1, if_neg h2]

lemma signStripped_digits (n : Nat) : signStripped (natToDigits n) = (false, natToDigits n) := by
  rcases hd : natToDigits n with _ | ⟨c, rest⟩
  · exact absurd hd (natToDigits_ne_nil n)
  · have hc : c ∈ natToDigits n := by rw [hd]; exact List.mem_cons_self _ _
    rcases mem_natToDigits hc with ⟨d, hd10, rfl⟩
    rw [signStripped_cons _ _ (isWs_digitChar hd10),
      if_neg (digitChar_ne_dash hd10), if_neg (digitChar_ne_plus hd10)]

lemma takeWhile_natToDigits (n : Nat) :
    (natToDigits n).takeWhile Char.isDigit = natToDigits n := by
  refine takeWhile_eq_self_of_all _ ?_
  intro c hc
  rcases mem_natToDigits hc with ⟨d, hd, rfl⟩
  exact isDigit_digitChar hd

lemma parseIntTen_natToDigits (n : Nat) : parseIntTen (natToDigits n) = JSNum.int n := by
  rw [parseIntTen, signStripped_digits]
  simp only [parseDigits, takeWhile_natToDigits]
  rw [if_neg (natToDigits_ne_nil n)]
  simp [digitsToNat_natToDigits]

lemma signStripped_neg (cs : List Char) : signStripped ('-' :: cs) = (true, cs) := by
  rw [signStripped_cons _ _ (by decide), if_pos rfl]

lemma parseIntTen_neg_digits (n : Nat) :
    parseIntTen ('-' :: natToDigits (n + 1)) = JSNum.int (Int.negSucc n) := by
  rw [parseIntTen, signStripped_neg]
  simp only [parseDigits, takeWhile_natToDigits]
  rw [if_neg (natToDigits_ne_nil (n + 1))]
  simp [digitsToNat_natToDigits, Int.negSucc_eq]

lemma jsNumToString_ne_empty (v : JSNum) : jsNumToString v ≠ "" := by
  cases v with
  | nan => decide
  | int i =>
    cases i with
    | ofNat n =>
      simp only [jsNumToString, jsIntToString, jsNatToString]
      intro h
      exact natToDigits_ne_nil n (congrArg String.data h)
    | negSucc n =>
      simp only [jsNumToString, jsIntToString]
      intro h
      exact List.cons_ne_nil _ _ (congrArg String.data h)

/-- Loading back a value the code itself stored recovers that value: the
stored canonical forms (`"NaN"` and decimal integers) parse to themselves. -/
lemma load_jsNumToString (v : JSNum) :
    loadTotalScore (some (jsNumToString v)) = v := by
  rw [loadTotalScore]
  rw [if_neg (jsNumToString_ne_empty v)]
  cases v with
  | nan => decide
  | int i =>
    cases i with
    | ofNat n =>
      show parseIntTen (String.toList (String.mk (natToDigits n))) = _
      rw [show String.toList (String.mk (natToDigits n)) = natToDigits n from rfl]
      exact parseIntTen_natToDigits n
    | negSucc n =>
      show parseIntTen (String.toList (String.mk ('-' :: natToDigits (n + 1)))) = _
      rw [show String.toList (String.mk ('-' :: natToDigits (n + 1))) =
        '-' :: natToDigits (n + 1) from rfl]
      exact parseIntTen_neg_digits n

lemma jadd_int_right (a : JSNum) (p q : Int) :
    jadd (jadd a (JSNum.int p)) (JSNum.int q) = jadd a (JSNum.int (p + q)) := by
  cases a with
  | nan => rfl
  | int x => simp [jadd, add_assoc]

lemma jadd_int_zero (a : JSNum) : jadd a (JSNum.int 0) = a := by
  cases a with
  | nan => rfl
  | int x => simp [jadd]

/-! ## Claim C2 — loading the cumulative counter -/

/-- C2 counterexample: the stored value `"abc"` is non-absent but unparsable
as an integer, and initialization yields `NaN`, not `0`, for it
(`parseInt("abc", 10)` is `NaN` and the code only defaults on falsy values). -/
theorem c2_malformed_storage_cex :
    loadTotalScore (some "abc") = JSNum.nan ∧ JSNum.nan ≠ JSNum.int 0 := by
  constructor
  · rfl
  · decide

/-- C2 (amended): initialization of the score ledger never fails and yields 0
when the stored value is absent or the empty string; but a non-empty stored
string with no leading integer numeral loads as `NaN` rather than `0`, while
a string with a leading numeral loads as some integer. -/
theorem c2_load_defaults (s : String) :
    loadTotalScore none = JSNum.int 0 ∧
    loadTotalScore (some "") = JSNum.int 0 ∧
    (s ≠ "" → startsWithIntNumeral s = false → loadTotalScore (some s) = JSNum.nan) ∧
    (startsWithIntNumeral s = true → ∃ n : Int, loadTotalScore (some s) = JSNum.int n) := by
  refine ⟨rfl, rfl, ?_, ?_⟩
  · intro hne hbad
    rw [startsWithIntNumeral, Bool.not_eq_false'] at hbad
    have hnil : ((signStripped s.toList).2.takeWhile Char.isDigit) = [] :=
      List.isEmpty_iff.mp hbad
    rw [loadTotalScore, if_neg hne]
    show parseIntTen s.toList = JSNum.nan
    rw [parseIntTen, parseDigits]
    simp only [hnil]
    rfl
  · intro hgood
    rw [startsWithIntNumeral, Bool.not_eq_true'] at hgood
    have hcons : ((signStripped s.toList).2.takeWhile Char.isDigit) ≠ [] := by
      intro h
      rw [h] at hgood
      exact absurd hgood (by decide)
    rw [loadTotalScore]
    by_cases hs : s = ""
    · exact ⟨0, by rw [if_pos hs]⟩
    · rw [if_neg hs]
      show ∃ n : Int, parseIntTen s.toList = JSNum.int n
      rw [parseIntTen, parseDigits]
      simp only [hcons, if_false]
      split <;> exact ⟨_, rfl⟩

/-- C2 witness: the amended statement at the concrete malformed input
`"abc"`. -/
theorem c2_load_defaults_witness :
    ("abc" : String) ≠ "" ∧ startsWithIntNumeral "abc" = false ∧
      loadTotalScore (some "abc") = JSNum.nan :=
  ⟨by decide, by decide, (c2_load_defaults "abc").2.2.1 (by decide) (by decide)⟩

/-! ## Claim C8 — monotonicity of the cumulative score -/

lemma runSM_totalScore (ops : List SMOp) :
    ∀ l : Ledger, (runSM l ops).totalScore = jadd l.totalScore (JSNum.int (sumInc ops)) := by
  induction ops with
  | nil => intro l; simp [runSM, sumInc, jadd_int_zero]
  | cons op rest ih =>
    intro l
    cases op with
    | increment p =>
      show (runSM (l.increment p) rest).totalScore = _
      rw [ih (l.increment p)]
      show jadd (jadd l.totalScore (JSNum.int p)) (JSNum.int (sumInc rest)) = _
      rw [jadd_int_right]
      rfl
    | reset =>
      show (runSM l.reset rest).totalScore = _
      rw [ih l.reset]
      rfl
    | getScore => exact ih l
    | getTotalScore => exact ih l

lemma sumInc_nonneg (ops : List SMOp)
    (h : ∀ p : Int, SMOp.increment p ∈ ops → 0 ≤ p) : 0 ≤ sumInc ops := by
  induction ops with
  | nil => simp [sumInc]
  | cons op rest ih =>
    have hrest : ∀ p : Int, SMOp.increment p ∈ rest → 0 ≤ p :=
      fun p hp => h p (List.mem_cons_of_mem _ hp)
    cases op with
    | increment p =>
      have hp : 0 ≤ p := h p (List.mem_cons_self _ _)
      have hr := ih hrest
      show 0 ≤ p + sumInc rest
      omega
    | reset => exact ih hrest
    | getScore => exact ih hrest
    | getTotalScore => exact ih hrest

/-- C8: under the caller contract that every increment is non-negative, the
cumulative score over any operation sequence changes exactly by the total of
the increments, a non-negative amount (so it never decreases, including when
`NaN`: the delta is absorbed); each increment adds the same amount to the
session and cumulative counters, and reset leaves the cumulative counter
untouched. -/
theorem c8_cumulative_monotone (ops : List SMOp) (l : Ledger)
    (h : ∀ p : Int, SMOp.increment p ∈ ops → 0 ≤ p) :
    (runSM l ops).totalScore = jadd l.totalScore (JSNum.int (sumInc ops)) ∧
    0 ≤ sumInc ops ∧
    (∀ (l' : Ledger) (p : Int),
      (l'.increment p).totalScore = jadd l'.totalScore (JSNum.int p) ∧
      (l'.increment p).score = l'.score + p) ∧
    (∀ l' : Ledger, (Ledger.reset l').totalScore = l'.totalScore) :=
  ⟨runSM_totalScore ops l, sumInc_nonneg ops h,
    fun _ _ => ⟨rfl, rfl⟩, fun _ => rfl⟩

/-- C8 witness: the theorem applied to a concrete run: an increment by 10, a
reset, and the reads, from a freshly loaded ledger. -/
theorem c8_cumulative_monotone_witness :
    (runSM (Ledger.init none) [SMOp.increment 10, SMOp.reset, SMOp.getScore]).totalScore =
      jadd (Ledger.init none).totalScore
        (JSNum.int (sumInc [SMOp.increment 10, SMOp.reset, SMOp.getScore])) ∧
    0 ≤ sumInc [SMOp.increment 10, SMOp.reset, SMOp.getScore] :=
  ⟨(c8_cumulative_monotone [SMOp.increment 10, SMOp.reset, SMOp.getScore]
      (Ledger.init none) (by intro p hp; simp at hp; omega)).1,
   (c8_cumulative_monotone [SMOp.increment 10, SMOp.reset, SMOp.getScore]
      (Ledger.init none) (by intro p hp; simp at hp; omega)).2.1⟩

/-! ## Claim C9 — the load-then-save round trip -/

/-- C9 counterexample: with absent storage, the load-then-save round trip is
not a no-op on the stored state: it writes `"0"` where nothing was stored. -/
theorem c9_roundtrip_not_noop_cex :
    roundTrip none = some "0" ∧ roundTrip none ≠ none := by
  constructor
  · rfl
  · intro h
    exact Option.noConfusion h

/-- C9 (amended): the round trip leaves the in-memory counters unchanged, and
on the stored state it is idempotent rather than the identity: a second
load-then-save is a no-op, and the first is a no-op exactly on canonically
stored contents.  (It rewrites the slot to the canonical rendering of the
loaded value — e.g. absent becomes `"0"`.) -/
theorem c9_roundtrip_idempotent (storage0 : Option String) :
    roundTrip (roundTrip storage0) = roundTrip storage0 ∧
    (Ledger.saveTotalScore (Ledger.init storage0)).totalScore =
      (Ledger.init storage0).totalScore ∧
    (Ledger.saveTotalScore (Ledger.init storage0)).score =
      (Ledger.init storage0).score := by
  refine ⟨?_, rfl, rfl⟩
  show (Ledger.saveTotalScore (Ledger.init (roundTrip storage0))).storage = _
  have h1 : roundTrip storage0 = some (jsNumToString (loadTotalScore storage0)) := rfl
  rw [h1]
  show some (jsNumToString (loadTotalScore (some (jsNumToString (loadTotalScore storage0))))) = _
  rw [load_jsNumToString]

/-! ## Engine invariants

`idsOk`: every armed timeout's handle is below the allocation counter and
handles are pairwise distinct.  `FallGood`: every armed fall (expiry) timeout
targets the current cursor position, was armed in the current session, is the
one whose handle `this.letterT` stores, and exists only while the cursor is
below the advance limit (so with `idsOk` there is at most one).  These are
the mechanisms behind the temporal claims: a match clears `this.letterT`,
hence the armed expiry; an expiry can only ever advance the cursor position
it was armed for. -/

def idsOk (l : List PendingTimer) (n : Nat) : Prop :=
  (∀ p ∈ l, p.id < n) ∧ l.Pairwise (fun p q => p.id ≠ q.id)

def FallGood (cfg : Config) (s : GameState) : Prop :=
  ∀ p ∈ s.pending, p.kind = TKind.fall →
    p.pos = s.idx ∧ p.session = s.sessionCount ∧ s.letterT = some p.id ∧
      s.idx < cfg.maxAdvance

def NoFall (s : GameState) : Prop := ∀ p ∈ s.pending, p.kind ≠ TKind.fall

def InvCore (cfg : Config) (s : GameState) : Prop :=
  idsOk s.pending s.nextId ∧ FallGood cfg s ∧
    (s.listenerOn = true → s.idx < cfg.maxAdvance) ∧ s.idx ≤ cfg.maxAdvance

lemma idsOk_sublist {l l' : List PendingTimer} {n : Nat} (h : l'.Sublist l)
    (hi : idsOk l n) : idsOk l' n :=
  ⟨fun p hp => hi.1 p (h.subset hp), hi.2.sublist h⟩

lemma idsOk_le {l : List PendingTimer} {n m : Nat} (h : n ≤ m) (hi : idsOk l n) :
    idsOk l m :=
  ⟨fun p hp => lt_of_lt_of_le (hi.1 p hp) h, hi.2⟩

lemma idsOk_snoc {l : List PendingTimer} {n : Nat} (p : PendingTimer) (hp : p.id = n)
    (hi : idsOk l n) : idsOk (l ++ [p]) (n + 1) := by
  constructor
  · intro q hq
    rcases List.mem_append.mp hq with h1 | h2
    · have := hi.1 q h1
      omega
    · rcases List.mem_singleton.mp h2 with rfl
      omega
  · rw [List.pairwise_append]
    refine ⟨hi.2, List.pairwise_singleton _ _, ?_⟩
    intro a ha b hb
    rcases List.mem_singleton.mp hb with rfl
    have := hi.1 a ha
    omega

lemma noFall_of_fallGood_cleared {cfg : Config} {s : GameState}
    (hf : FallGood cfg s) :
    ∀ p ∈ clearTimeoutH s.letterT s.pending, p.kind ≠ TKind.fall := by
  intro p hp hk
  cases hlt : s.letterT with
  | none =>
    rw [hlt] at hp
    simp only [clearTimeoutH] at hp
    have := (hf p hp hk).2.2.1
    rw [hlt] at this
    exact Option.noConfusion this
  | some i =>
    rw [hlt] at hp
    simp only [clearTimeoutH] at hp
    rcases List.mem_filter.mp hp with ⟨hmem, hid⟩
    have h1 := (hf p hmem hk).2.2.1
    rw [hlt] at h1
    have h2 : p.id = i := by
      have := Option.some.inj h1
      omega
    rw [decide_eq_true_eq] at hid
    exact hid h2

lemma inv_startTimer (cfg : Config) (s : GameState)
    (hio : idsOk s.pending s.nextId) (hnf : NoFall s)
    (hidx : s.idx < cfg.maxAdvance) :
    InvCore cfg (startTimer cfg s) := by
  unfold startTimer
  split
  · refine ⟨hio, ?_, fun _ => hidx, le_of_lt hidx⟩
    intro p hp hk
    exact absurd hk (hnf p hp)
  · dsimp only
    refine ⟨?_, ?_, fun _ => hidx, le_of_lt hidx⟩
    · exact idsOk_snoc _ rfl (idsOk_snoc _ rfl hio)
    · intro p hp hk
      rcases List.mem_append.mp hp with h1 | h2
      · rcases List.mem_append.mp h1 with h3 | h4
        · exact absurd hk (hnf p h3)
        · rcases List.mem_singleton.mp h4 with rfl
          simp at hk
      · rcases List.mem_singleton.mp h2 with rfl
        exact ⟨rfl, rfl, rfl, hidx⟩

lemma clearTimeoutH_sublist (h : Option Nat) (l : List PendingTimer) :
    (clearTimeoutH h l).Sublist l := by
  cases h with
  | none => exact List.Sublist.refl l
  | some i => exact List.filter_sublist l

lemma smIncrement_pending (p : Int) (s : GameState) :
    (smIncrement p s).pending = s.pending := by
  unfold smIncrement; split <;> rfl

lemma smIncrement_idx (p : Int) (s : GameState) : (smIncrement p s).idx = s.idx := by
  unfold smIncrement; split <;> rfl

lemma smIncrement_nextId (p : Int) (s : GameState) :
    (smIncrement p s).nextId = s.nextId := by
  unfold smIncrement; split <;> rfl

lemma smIncrement_letterT (p : Int) (s : GameState) :
    (smIncrement p s).letterT = s.letterT := by
  unfold smIncrement; split <;> rfl

lemma smIncrement_sessionCount (p : Int) (s : GameState) :
    (smIncrement p s).sessionCount = s.sessionCount := by
  unfold smIncrement; split <;> rfl

lemma smIncrement_listenerOn (p : Int) (s : GameState) :
    (smIncrement p s).listenerOn = s.listenerOn := by
  unfold smIncrement; split <;> rfl

lemma endGame_idx (s : GameState) : (endGame s).idx = s.idx := by
  unfold endGame
  dsimp only
  split
  · split <;> rfl
  · rfl

lemma startTimer_idx (cfg : Config) (s : GameState) :
    (startTimer cfg s).idx = s.idx := by
  unfold startTimer
  split
  · rfl
  · rfl

lemma nextLetter_idx (cfg : Config) (s : GameState) :
    (nextLetter cfg s).idx = s.idx + 1 := by
  unfold nextLetter
  dsimp only
  split
  · rw [endGame_idx]
  · rw [startTimer_idx]

lemma inv_endGame (cfg : Config) (s : GameState)
    (hio : idsOk s.pending s.nextId) (hnf : NoFall s)
    (hle : s.idx ≤ cfg.maxAdvance) : InvCore cfg (endGame s) := by
  unfold endGame
  dsimp only
  split
  · split
    · exact ⟨hio, fun p hp hk => absurd hk (hnf p hp),
        fun h => absurd h Bool.false_ne_true, hle⟩
    · exact ⟨hio, fun p hp hk => absurd hk (hnf p hp),
        fun h => absurd h Bool.false_ne_true, hle⟩
  · exact ⟨hio, fun p hp hk => absurd hk (hnf p hp),
      fun h => absurd h Bool.false_ne_true, hle⟩

lemma inv_nextLetter (cfg : Config) (s : GameState)
    (hio : idsOk s.pending s.nextId) (hnf : NoFall s)
    (hidx : s.idx < cfg.maxAdvance) : InvCore cfg (nextLetter cfg s) := by
  unfold nextLetter
  dsimp only
  split
  · exact inv_endGame cfg { s with idx := s.idx + 1 } hio hnf
      (show s.idx + 1 ≤ cfg.maxAdvance by omega)
  · rename_i hlt
    have hlt' : ¬ cfg.maxAdvance ≤ s.idx + 1 := hlt
    exact inv_startTimer cfg { s with idx := s.idx + 1 } hio hnf
      (show s.idx + 1 < cfg.maxAdvance by omega)

lemma inv_handleCorrectKey (cfg : Config) (s : GameState)
    (h : InvCore cfg s) (hl : s.listenerOn = true) :
    InvCore cfg (handleCorrectKey cfg s) := by
  obtain ⟨hio, hfg, hlis, hle⟩ := h
  have hidx : s.idx < cfg.maxAdvance := hlis hl
  unfold handleCorrectKey
  dsimp only
  apply inv_nextLetter
  · rw [smIncrement_pending, smIncrement_nextId]
    exact idsOk_sublist (clearTimeoutH_sublist _ _) hio
  · intro p hp
    rw [smIncrement_pending] at hp
    exact noFall_of_fallGood_cleared hfg p hp
  · rw [smIncrement_idx]
    exact hidx

lemma inv_resetState (cfg : Config) (s : GameState) (h1 : 1 ≤ cfg.maxAdvance)
    (h : InvCore cfg s) : InvCore cfg (resetState s) ∧ NoFall (resetState s) := by
  obtain ⟨hio, hfg, hlis, hle⟩ := h
  have hnf : NoFall (resetState s) := fun p hp => noFall_of_fallGood_cleared hfg p hp
  refine ⟨⟨?_, ?_, ?_, ?_⟩, hnf⟩
  · exact idsOk_sublist (clearTimeoutH_sublist _ _) hio
  · intro p hp hk
    exact absurd hk (hnf p hp)
  · intro _
    show 0 < cfg.maxAdvance
    omega
  · show 0 ≤ cfg.maxAdvance
    omega

lemma inv_start (cfg : Config) (seq : List Char) (s : GameState)
    (h1 : 1 ≤ cfg.maxAdvance) (h : InvCore cfg s) :
    InvCore cfg (start cfg seq s) := by
  obtain ⟨⟨hio, _, _, _⟩, hnf⟩ := inv_resetState cfg s h1 h
  unfold start render
  dsimp only
  apply inv_startTimer
  · exact idsOk_sublist (clearTimeoutH_sublist _ _) hio
  · intro p hp
    have hp' : p ∈ (resetState s).pending := (clearTimeoutH_sublist _ _).subset hp
    exact hnf p hp'
  · show 0 < cfg.maxAdvance
    omega

lemma inv_stepFire (cfg : Config) (i : Nat) (s : GameState)
    (h : InvCore cfg s) : InvCore cfg (stepFire cfg i s) := by
  obtain ⟨hio, hfg, hlis, hle⟩ := h
  unfold stepFire
  cases hfind : s.pending.find? (fun p => decide (p.id = i)) with
  | none => exact ⟨hio, hfg, hlis, hle⟩
  | some p =>
    dsimp only
    split
    · have hpmem : p ∈ s.pending := List.mem_of_find?_eq_some hfind
      cases hk : p.kind with
      | warn =>
        unfold runTimer
        rw [hk]
        dsimp only
        refine ⟨?_, ?_, hlis, hle⟩
        · exact idsOk_le (show s.nextId ≤ s.nextId + 1 from Nat.le_succ _)
            (idsOk_sublist (List.filter_sublist _) hio)
        · intro q hq hkq
          rcases List.mem_filter.mp hq with ⟨hq1, _⟩
          exact hfg q hq1 hkq
      | fall =>
        have hfall := hfg p hpmem hk
        have hnf : ∀ q ∈ s.pending.filter (fun q => decide (q.id ≠ p.id)),
            q.kind ≠ TKind.fall := by
          intro q hq hkq
          rcases List.mem_filter.mp hq with ⟨hq1, hq2⟩
          have h1 := (hfg q hq1 hkq).2.2.1
          have h2 := hfall.2.2.1
          rw [h1] at h2
          have : q.id = p.id := by
            have := Option.some.inj h2
            omega
          rw [decide_eq_true_eq] at hq2
          exact hq2 this
        unfold runTimer
        rw [hk]
        dsimp only
        by_cases hc : s.firedRounds.contains p.round = true
        · rw [if_pos hc]
          apply inv_nextLetter
          · exact idsOk_sublist (List.filter_sublist _) hio
          · exact hnf
          · exact hfall.2.2.2
        · rw [if_neg hc]
          apply inv_nextLetter
          · exact idsOk_sublist (List.filter_sublist _) hio
          · exact hnf
          · exact hfall.2.2.2
    · exact ⟨hio, hfg, hlis, hle⟩

lemma invCore_setTime (cfg : Config) (s : GameState) (t : Nat)
    (h : InvCore cfg s) : InvCore cfg { s with time := t } := h

lemma inv_stepKey (cfg : Config) (t : Nat) (k : Char) (s : GameState)
    (h : InvCore cfg s) : InvCore cfg (stepKey cfg t k s) := by
  unfold stepKey
  split
  · dsimp only
    split
    · split
      · exact invCore_setTime cfg s t h
      · split
        · rename_i hlist _ _
          exact inv_handleCorrectKey cfg _ (invCore_setTime cfg s t h) hlist
        · exact invCore_setTime cfg s t h
    · exact invCore_setTime cfg s t h
  · exact h

lemma inv_stepEvent (cfg : Config) (h1 : 1 ≤ cfg.maxAdvance) (s : GameState)
    (e : Ev) (h : InvCore cfg s) : InvCore cfg (stepEvent cfg s e) := by
  cases e with
  | key t k => exact inv_stepKey cfg t k s h
  | fire i => exact inv_stepFire cfg i s h
  | start t seq =>
    show InvCore cfg (if timeOK t s = true then start cfg seq { s with time := t } else s)
    split
    · exact inv_start cfg seq _ h1 (invCore_setTime cfg s t h)
    · exact h
  | reset t =>
    show InvCore cfg (if timeOK t s = true then resetState { s with time := t } else s)
    split
    · exact (inv_resetState cfg _ h1 (invCore_setTime cfg s t h)).1
    · exact h

lemma inv_run (cfg : Config) (h1 : 1 ≤ cfg.maxAdvance) (evs : List Ev) :
    ∀ s : GameState, InvCore cfg s → InvCore cfg (run cfg s evs) := by
  induction evs with
  | nil => intro s h; exact h
  | cons e rest ih =>
    intro s h
    exact ih (stepEvent cfg s e) (inv_stepEvent cfg h1 s e h)

lemma inv_gameInit (cfg : Config) (hasOGO smAttached : Bool)
    (storage0 : Option String) : InvCore cfg (gameInit hasOGO smAttached storage0) := by
  refine ⟨⟨?_, ?_⟩, ?_, ?_, ?_⟩
  · intro p hp
    exact absurd hp (List.not_mem_nil p)
  · exact List.Pairwise.nil
  · intro p hp
    exact absurd hp (List.not_mem_nil p)
  · intro hcontra
    exact absurd hcontra Bool.false_ne_true
  · exact Nat.zero_le _

lemma eq_of_mem_pairwise_ids {l : List PendingTimer}
    (hp : l.Pairwise (fun a b => a.id ≠ b.id)) {p q : PendingTimer}
    (hpm : p ∈ l) (hqm : q ∈ l) (hid : p.id = q.id) : p = q := by
  induction l with
  | nil => cases hpm
  | cons a rest ih =>
    rcases List.pairwise_cons.mp hp with ⟨ha, hrest⟩
    rcases List.mem_cons.mp hpm with rfl | hpm'
    · rcases List.mem_cons.mp hqm with rfl | hqm'
      · rfl
      · exact absurd hid (ha q hqm')
    · rcases List.mem_cons.mp hqm with rfl | hqm'
      · exact absurd hid.symm (ha p hpm')
      · exact ih hrest hpm' hqm'

/-! ## Claim C1 — match versus expiry for one position -/

/-- C1 counterexample: the claim says a match before expiry cancels both
scheduled timers, so the warning toggle never fires afterwards for the
consumed position.  But `this.letterT` only stores the fall handle (the
warning handle is overwritten), so after matching position 0 at t = 1000 ms
the warning timeout armed for position 0 is still pending and fires at
t = 7000 ms, starting the warning toggle for the already-consumed position. -/
theorem c1_warn_not_cancelled_cex :
    warnFiredAfterConsumed 0
      (run CONFIG (gameInit true true none)
        [Ev.start 0 seqA, Ev.key 1000 'a', Ev.fire 0]).log = true := by
  decide

/-- C1 (amended): for every position at most one of the match-triggered and
expiry-triggered advances executes, and a match cancels the scheduled expiry
timer, so neither the missed/fall effect nor a second advance can occur for a
consumed position: in every reachable state every armed expiry (fall) timer
targets exactly the current cursor position, its handle is the one stored in
`this.letterT` (which the match clears), and there is at most one.  However, a
match before the warning deadline does not cancel the pending warning
timeout, whose toggle can still fire for the consumed position. -/
theorem c1_fall_timer_targets_cursor (cfg : Config) (h1 : 1 ≤ cfg.maxAdvance)
    (hasOGO smAttached : Bool) (storage0 : Option String) (evs : List Ev) :
    let sf := run cfg (gameInit hasOGO smAttached storage0) evs
    (∀ p ∈ sf.pending, p.kind = TKind.fall →
        p.pos = sf.idx ∧ sf.letterT = some p.id) ∧
    (∀ p ∈ sf.pending, ∀ q ∈ sf.pending,
        p.kind = TKind.fall → q.kind = TKind.fall → p = q) := by
  intro sf
  obtain ⟨⟨hids, hpw⟩, hfg, _, _⟩ :=
    inv_run cfg h1 evs _ (inv_gameInit cfg hasOGO smAttached storage0)
  constructor
  · intro p hp hk
    exact ⟨(hfg p hp hk).1, (hfg p hp hk).2.2.1⟩
  · intro p hp q hq hkp hkq
    have h1p := (hfg p hp hkp).2.2.1
    have h1q := (hfg q hq hkq).2.2.1
    rw [h1p] at h1q
    exact eq_of_mem_pairwise_ids hpw hp hq (Option.some.inj h1q)

/-- C1 witness: the amended invariant at the code's configuration on the
concrete freshly started session. -/
theorem c1_fall_timer_targets_cursor_witness :
    1 ≤ CONFIG.maxAdvance ∧
    (∀ p ∈ (run CONFIG (gameInit true true none) [Ev.start 0 seqA]).pending,
        p.kind = TKind.fall →
          p.pos = (run CONFIG (gameInit true true none) [Ev.start 0 seqA]).idx ∧
          (run CONFIG (gameInit true true none) [Ev.start 0 seqA]).letterT = some p.id) :=
  ⟨by decide,
    (c1_fall_timer_targets_cursor CONFIG (by decide) true true none [Ev.start 0 seqA]).1⟩

/-! ## Claim C6 — reset / restart cancellation -/

/-- C6 counterexample: starting a new session at t = 1000 ms while the first
session's timers are armed does not cancel the first session's warning
timeout: right after the second `start` a timer armed in session 1 is still
pending, and when it fires at t = 7000 ms the warning toggle from the prior
session starts inside the new session. -/
theorem c6_stale_warn_cex :
    hasStaleTimer (run CONFIG (gameInit true true none)
      [Ev.start 0 seqA, Ev.start 1000 (List.replicate 7 'b')]) = true ∧
    staleWarnFired (run CONFIG (gameInit true true none)
      [Ev.start 0 seqA, Ev.start 1000 (List.replicate 7 'b'), Ev.fire 0]) = true := by
  exact ⟨by decide, by decide⟩

/-- C6 (amended): `resetState` and `start` cancel the outstanding expiry
(fall) timer of the previous session — in every reachable state every armed
expiry timer was armed in the current session, so no stale expiry from a
prior session can fire into a new one.  The pending warning timeout of the
previous session, however, is not cancelled (its handle was overwritten in
`this.letterT`) and can still fire into the new session. -/
theorem c6_fall_timer_session_fresh (cfg : Config) (h1 : 1 ≤ cfg.maxAdvance)
    (hasOGO smAttached : Bool) (storage0 : Option String) (evs : List Ev) :
    let sf := run cfg (gameInit hasOGO smAttached storage0) evs
    ∀ p ∈ sf.pending, p.kind = TKind.fall → p.session = sf.sessionCount := by
  intro sf p hp hk
  exact ((inv_run cfg h1 evs _
    (inv_gameInit cfg hasOGO smAttached storage0)).2.1 p hp hk).2.1

/-- C6 witness: the amended statement at the code's configuration on a
concrete double-start run. -/
theorem c6_fall_timer_session_fresh_witness :
    1 ≤ CONFIG.maxAdvance ∧
    (∀ p ∈ (run CONFIG (gameInit true true none)
        [Ev.start 0 seqA, Ev.start 1000 (List.replicate 7 'b')]).pending,
      p.kind = TKind.fall →
        p.session = (run CONFIG (gameInit true true none)
          [Ev.start 0 seqA, Ev.start 1000 (List.replicate 7 'b')]).sessionCount) :=
  ⟨by decide,
    c6_fall_timer_session_fresh CONFIG (by decide) true true none
      [Ev.start 0 seqA, Ev.start 1000 (List.replicate 7 'b')]⟩

/-! ## Claim C7 — cursor bounds -/

/-- C7: the cursor starts at 0, every advance increments it by exactly one,
and in every reachable state of every run `0 ≤ cursor ≤ advanceLimit` holds
(for the code's positive advance limit). -/
theorem c7_cursor_bounds (cfg : Config) (h1 : 1 ≤ cfg.maxAdvance)
    (hasOGO smAttached : Bool) (storage0 : Option String) (evs : List Ev) :
    (gameInit hasOGO smAttached storage0).idx = 0 ∧
    (∀ s : GameState, (nextLetter cfg s).idx = s.idx + 1) ∧
    0 ≤ (run cfg (gameInit hasOGO smAttached storage0) evs).idx ∧
    (run cfg (gameInit hasOGO smAttached storage0) evs).idx ≤ cfg.maxAdvance := by
  refine ⟨rfl, nextLetter_idx cfg, Nat.zero_le _, ?_⟩
  exact (inv_run cfg h1 evs _ (inv_gameInit cfg hasOGO smAttached storage0)).2.2.2

/-- C7 witness: the bounds at the code's configuration on a concrete run in
which position 0 is matched. -/
theorem c7_cursor_bounds_witness :
    1 ≤ CONFIG.maxAdvance ∧
    (run CONFIG (gameInit true true none)
      [Ev.start 0 seqA, Ev.key 1000 'a']).idx ≤ CONFIG.maxAdvance :=
  ⟨by decide,
    (c7_cursor_bounds CONFIG (by decide) true true none
      [Ev.start 0 seqA, Ev.key 1000 'a']).2.2.2⟩

/-! ## Further projection facts used by the input and end-of-session claims -/

lemma smIncrement_not_attached (p : Int) (s : GameState)
    (h : s.scoreMgrAttached = false) : smIncrement p s = s := by
  unfold smIncrement
  split
  · rename_i hc
    rw [h] at hc
    exact absurd hc Bool.false_ne_true
  · rfl

lemma smIncrement_attached (p : Int) (s : GameState)
    (h : s.scoreMgrAttached = true) :
    smIncrement p s =
      { s with score := s.score + p,
               totalScore := jadd s.totalScore (JSNum.int p),
               storage := some (jsNumToString (jadd s.totalScore (JSNum.int p))) } := by
  unfold smIncrement
  split
  · rfl
  · rename_i hc
    exact absurd h hc

lemma endGame_crash (s : GameState) (hogo : s.hasOnGameOver = true)
    (hsm : s.scoreMgrAttached = false) :
    endGame s = { s with listenerOn := false, crashed := true } := by
  unfold endGame
  dsimp only
  rw [if_pos (show ({ s with listenerOn := false } : GameState).hasOnGameOver = true
        from hogo),
      if_neg (show ¬ ({ s with listenerOn := false } : GameState).scoreMgrAttached = true
        from by
          intro hc
          have hc' : s.scoreMgrAttached = true := hc
          rw [hsm] at hc'
          exact absurd hc' Bool.false_ne_true)]

lemma endGame_normal (s : GameState) (hogo : s.hasOnGameOver = true)
    (hsm : s.scoreMgrAttached = true) :
    endGame s = { s with listenerOn := false,
                         gameOverCalls := s.gameOverCalls ++ [s.score] } := by
  unfold endGame
  dsimp only
  rw [if_pos (show ({ s with listenerOn := false } : GameState).hasOnGameOver = true
        from hogo),
      if_pos (show ({ s with listenerOn := false } : GameState).scoreMgrAttached = true
        from hsm)]

lemma startTimer_score (cfg : Config) (s : GameState) :
    (startTimer cfg s).score = s.score := by
  unfold startTimer; split <;> rfl

lemma startTimer_totalScore (cfg : Config) (s : GameState) :
    (startTimer cfg s).totalScore = s.totalScore := by
  unfold startTimer; split <;> rfl

lemma startTimer_storage (cfg : Config) (s : GameState) :
    (startTimer cfg s).storage = s.storage := by
  unfold startTimer; split <;> rfl

lemma startTimer_crashed (cfg : Config) (s : GameState) :
    (startTimer cfg s).crashed = s.crashed := by
  unfold startTimer; split <;> rfl

lemma startTimer_gameOverCalls (cfg : Config) (s : GameState) :
    (startTimer cfg s).gameOverCalls = s.gameOverCalls := by
  unfold startTimer; split <;> rfl

lemma startTimer_listenerOn (cfg : Config) (s : GameState) :
    (startTimer cfg s).listenerOn = s.listenerOn := by
  unfold startTimer; split <;> rfl

lemma startTimer_matchAdvances (cfg : Config) (s : GameState) :
    (startTimer cfg s).matchAdvances = s.matchAdvances := by
  unfold startTimer; split <;> rfl

lemma startTimer_fallAdvances (cfg : Config) (s : GameState) :
    (startTimer cfg s).fallAdvances = s.fallAdvances := by
  unfold startTimer; split <;> rfl

/-! ## Claim C5 — input is a no-op off the happy path -/

/-- C5: a keydown is a no-op on all engine and score state (sequence, cursor,
session and cumulative counters, stored value, armed timeouts, live warning
toggles, and the set of game-over invocations) whenever the key differs from
the symbol at the cursor, or the handler is not attached (`Idle` before any
start, and `Ended` after `endGame` removed the listener), or the cursor is
past the sequence (the handler's guard; in particular the `Idle` state right
after construction or `resetState`, whose sequence is empty).  In the `Ended`
case the game-over callback is not invoked again. -/
theorem c5_input_noop (cfg : Config) (s : GameState) (t : Nat) (k : Char)
    (h : s.listenerOn = false ∨ s.seq.length ≤ s.idx ∨ k ≠ s.seq.getD s.idx ' ') :
    let s' := stepEvent cfg s (Ev.key t k)
    s'.seq = s.seq ∧ s'.idx = s.idx ∧ s'.score = s.score ∧
    s'.totalScore = s.totalScore ∧ s'.storage = s.storage ∧
    s'.pending = s.pending ∧ s'.intervals = s.intervals ∧
    s'.gameOverCalls = s.gameOverCalls ∧ s'.listenerOn = s.listenerOn ∧
    s'.matchAdvances = s.matchAdvances ∧ s'.fallAdvances = s.fallAdvances := by
  intro s'
  rw [show s' = stepKey cfg t k s from rfl]
  unfold stepKey
  split
  · dsimp only
    split
    · split
      · exact ⟨rfl, rfl, rfl, rfl, rfl, rfl, rfl, rfl, rfl, rfl, rfl⟩
      · split
        · rename_i hlis hidxlt hkey
          exfalso
          rcases h with h | h | h
          · have hlis' : s.listenerOn = true := hlis
            rw [h] at hlis'
            exact absurd hlis' Bool.false_ne_true
          · exact hidxlt h
          · exact h hkey
        · exact ⟨rfl, rfl, rfl, rfl, rfl, rfl, rfl, rfl, rfl, rfl, rfl⟩
    · exact ⟨rfl, rfl, rfl, rfl, rfl, rfl, rfl, rfl, rfl, rfl, rfl⟩
  · exact ⟨rfl, rfl, rfl, rfl, rfl, rfl, rfl, rfl, rfl, rfl, rfl⟩

/-- C5 witness: a wrong key (`'z'` against the active `'a'`) pressed in a
live session changes neither the cursor nor the armed timeouts nor the
game-over invocations. -/
theorem c5_input_noop_witness :
    (stepEvent CONFIG (run CONFIG (gameInit true true none) [Ev.start 0 seqA])
        (Ev.key 500 'z')).idx =
      (run CONFIG (gameInit true true none) [Ev.start 0 seqA]).idx ∧
    (stepEvent CONFIG (run CONFIG (gameInit true true none) [Ev.start 0 seqA])
        (Ev.key 500 'z')).pending =
      (run CONFIG (gameInit true true none) [Ev.start 0 seqA]).pending ∧
    (stepEvent CONFIG (run CONFIG (gameInit true true none) [Ev.start 0 seqA])
        (Ev.key 500 'z')).gameOverCalls =
      (run CONFIG (gameInit true true none) [Ev.start 0 seqA]).gameOverCalls :=
  ⟨(c5_input_noop CONFIG (run CONFIG (gameInit true true none) [Ev.start 0 seqA])
      500 'z' (by decide)).2.1,
   (c5_input_noop CONFIG (run CONFIG (gameInit true true none) [Ev.start 0 seqA])
      500 'z' (by decide)).2.2.2.2.2.1,
   (c5_input_noop CONFIG (run CONFIG (gameInit true true none) [Ev.start 0 seqA])
      500 'z' (by decide)).2.2.2.2.2.2.2.1⟩

/-! ## Claim C10 — missing score manager -/

/-- C10: with no score manager attached and a game-over callback present, a
correct key still advances the cursor (the score increment is skipped by the
optional call, so the score state is untouched and nothing throws while the
session continues), but the session-end transition evaluates
`this.scoreManager.getScore()` unconditionally and throws instead of invoking
the game-over callback. -/
theorem c10_missing_scoremanager (cfg : Config) (s : GameState) (t : Nat) (k : Char)
    (hT : timeOK t s = true) (hl : s.listenerOn = true)
    (hIdx : s.idx < s.seq.length) (hk : k = s.seq.getD s.idx ' ')
    (hSM : s.scoreMgrAttached = false) (hOGO : s.hasOnGameOver = true) :
    let s' := stepEvent cfg s (Ev.key t k)
    s'.idx = s.idx + 1 ∧ s'.score = s.score ∧ s'.totalScore = s.totalScore ∧
    s'.storage = s.storage ∧
    (s.idx + 1 < cfg.maxAdvance →
      s'.crashed = s.crashed ∧ s'.gameOverCalls = s.gameOverCalls ∧
        s'.listenerOn = true) ∧
    (cfg.maxAdvance ≤ s.idx + 1 →
      s'.crashed = true ∧ s'.gameOverCalls = s.gameOverCalls ∧
        s'.listenerOn = false) := by
  intro s'
  rw [show s' = stepKey cfg t k s from rfl]
  unfold stepKey
  rw [if_pos hT]
  dsimp only
  rw [if_pos (show ({ s with time := t } : GameState).listenerOn = true from hl)]
  have hnot : ¬ s.seq.length ≤ s.idx := by omega
  rw [if_neg (show ¬ ({ s with time := t } : GameState).idx ≥
    ({ s with time := t } : GameState).seq.length from hnot)]
  rw [if_pos (show k = ({ s with time := t } : GameState).seq.getD
    ({ s with time := t } : GameState).idx ' ' from hk)]
  unfold handleCorrectKey smIncrement
  dsimp only
  rw [if_neg (show ¬ s.scoreMgrAttached = true from by
    intro hc
    rw [hSM] at hc
    exact absurd hc Bool.false_ne_true)]
  unfold nextLetter
  dsimp only
  split
  · rename_i hge
    have hge' : cfg.maxAdvance ≤ s.idx + 1 := hge
    rw [endGame_crash]
    · exact ⟨rfl, rfl, rfl, rfl, fun hlt => absurd hge' (by omega),
        fun _ => ⟨rfl, rfl, rfl⟩⟩
    · exact hOGO
    · exact hSM
  · rename_i hlt
    have hlt' : ¬ cfg.maxAdvance ≤ s.idx + 1 := hlt
    refine ⟨?_, ?_, ?_, ?_, fun _ => ⟨?_, ?_, ?_⟩, fun hge2 => absurd hge2 hlt'⟩
    · rw [startTimer_idx]
    · rw [startTimer_score]
    · rw [startTimer_totalScore]
    · rw [startTimer_storage]
    · rw [startTimer_crashed]
    · rw [startTimer_gameOverCalls]
    · rw [startTimer_listenerOn]
      exact hl

/-- The state of a session run with no score manager attached, after six
correct keys (cursor at 6 of limit 7). -/
def sNoSM : GameState :=
  run CONFIG (gameInit true false none)
    [Ev.start 0 seqA, Ev.key 100 'a', Ev.key 200 'a', Ev.key 300 'a',
     Ev.key 400 'a', Ev.key 500 'a', Ev.key 600 'a']

/-- C10 witness: the seventh correct key reaches the session-end transition,
which throws (no game-over invocation is recorded). -/
theorem c10_missing_scoremanager_witness :
    sNoSM.scoreMgrAttached = false ∧ sNoSM.idx = 6 ∧ sNoSM.crashed = false ∧
    ((stepEvent CONFIG sNoSM (Ev.key 700 'a')).crashed = true ∧
     (stepEvent CONFIG sNoSM (Ev.key 700 'a')).gameOverCalls = sNoSM.gameOverCalls ∧
     (stepEvent CONFIG sNoSM (Ev.key 700 'a')).listenerOn = false) :=
  ⟨by decide, by decide, by decide,
    (c10_missing_scoremanager CONFIG sNoSM 700 'a' (by decide) (by decide)
      (by decide) (by decide) (by decide) (by decide)).2.2.2.2.2 (by decide)⟩

/-! ## Session invariant

For a single session driven only by key presses and timer firings (no
restarts), with the score manager attached and a game-over callback present:
the session score is ten points per match-triggered advance, the cumulative
score moved by the same amount, storage is untouched until a first match,
the cursor counts the advances, and the game-over callback has been invoked
exactly when the listener has been removed (once, with the final score). -/

def Sess (cfg : Config) (t0 : JSNum) (st0 : Option String) (s : GameState) : Prop :=
  s.scoreMgrAttached = true ∧ s.hasOnGameOver = true ∧
  s.score = 10 * (s.matchAdvances : Int) ∧
  s.totalScore = jadd t0 (JSNum.int (10 * (s.matchAdvances : Int))) ∧
  (s.matchAdvances = 0 → s.storage = st0) ∧
  s.idx = s.matchAdvances + s.fallAdvances ∧
  (s.listenerOn = true → s.gameOverCalls = []) ∧
  (s.listenerOn = false →
    s.gameOverCalls = [10 * (s.matchAdvances : Int)] ∧ s.idx = cfg.maxAdvance)

lemma sess_startTimer (cfg : Config) (t0 : JSNum) (st0 : Option String)
    (x : GameState) (h : Sess cfg t0 st0 x) : Sess cfg t0 st0 (startTimer cfg x) := by
  unfold startTimer
  split
  · exact h
  · dsimp only
    exact h

lemma sess_setTime (cfg : Config) (t0 : JSNum) (st0 : Option String)
    (s : GameState) (t : Nat) (h : Sess cfg t0 st0 s) :
    Sess cfg t0 st0 { s with time := t } := h

lemma sess_nextLetter (cfg : Config) (t0 : JSNum) (st0 : Option String)
    (sM : GameState)
    (hsm : sM.scoreMgrAttached = true) (hogo : sM.hasOnGameOver = true)
    (hlOn : sM.listenerOn = true)
    (hsc : sM.score = 10 * (sM.matchAdvances : Int))
    (hts : sM.totalScore = jadd t0 (JSNum.int (10 * (sM.matchAdvances : Int))))
    (hst : sM.matchAdvances = 0 → sM.storage = st0)
    (hidxf : sM.idx + 1 = sM.matchAdvances + sM.fallAdvances)
    (hcal : sM.gameOverCalls = [])
    (hidx : sM.idx < cfg.maxAdvance) :
    Sess cfg t0 st0 (nextLetter cfg sM) := by
  unfold nextLetter
  dsimp only
  split
  · rename_i hge
    have hge' : cfg.maxAdvance ≤ sM.idx + 1 := hge
    rw [endGame_normal]
    · refine ⟨hsm, hogo, hsc, hts, hst, hidxf,
        fun hfalse => absurd hfalse Bool.false_ne_true, fun _ => ⟨?_, ?_⟩⟩
      · show sM.gameOverCalls ++ [sM.score] = [10 * (sM.matchAdvances : Int)]
        rw [hcal, hsc]
        rfl
      · show sM.idx + 1 = cfg.maxAdvance
        omega
    · exact hogo
    · exact hsm
  · rename_i hlt
    have hlt' : ¬ cfg.maxAdvance ≤ sM.idx + 1 := hlt
    apply sess_startTimer
    refine ⟨hsm, hogo, hsc, hts, hst, hidxf, fun _ => hcal, fun hfalse => ?_⟩
    exact absurd (hlOn.symm.trans hfalse) (by decide)

lemma sess_handleCorrectKey (cfg : Config) (t0 : JSNum) (st0 : Option String)
    (s : GameState) (hI : InvCore cfg s) (hS : Sess cfg t0 st0 s)
    (hl : s.listenerOn = true) : Sess cfg t0 st0 (handleCorrectKey cfg s) := by
  obtain ⟨hsm, hogo, hsc, hts, hst, hidxf, hcal1, hcal2⟩ := hS
  have hidx : s.idx < cfg.maxAdvance := hI.2.2.1 hl
  have hcal : s.gameOverCalls = [] := hcal1 hl
  unfold handleCorrectKey smIncrement
  dsimp only
  rw [if_pos (show s.scoreMgrAttached = true from hsm)]
  dsimp only
  apply sess_nextLetter
  · exact hsm
  · exact hogo
  · exact hl
  · show s.score + 10 = 10 * ((s.matchAdvances + 1 : Nat) : Int)
    rw [hsc]
    push_cast
    ring
  · show jadd s.totalScore (JSNum.int 10) =
      jadd t0 (JSNum.int (10 * ((s.matchAdvances + 1 : Nat) : Int)))
    rw [hts, jadd_int_right]
    have harith : 10 * (s.matchAdvances : Int) + 10 =
        10 * ((s.matchAdvances + 1 : Nat) : Int) := by
      push_cast
      ring
    rw [harith]
  · intro h0
    exact absurd h0 (Nat.succ_ne_zero _)
  · show s.idx + 1 = (s.matchAdvances + 1) + s.fallAdvances
    omega
  · exact hcal
  · exact hidx

lemma sess_stepKey (cfg : Config) (t0 : JSNum) (st0 : Option String)
    (t : Nat) (k : Char) (s : GameState) (hI : InvCore cfg s)
    (hS : Sess cfg t0 st0 s) : Sess cfg t0 st0 (stepKey cfg t k s) := by
  unfold stepKey
  split
  · dsimp only
    split
    · split
      · exact sess_setTime cfg t0 st0 s t hS
      · split
        · rename_i hlis hidxlt hkey
          exact sess_handleCorrectKey cfg t0 st0 { s with time := t }
            (invCore_setTime cfg s t hI) (sess_setTime cfg t0 st0 s t hS) hlis
        · exact sess_setTime cfg t0 st0 s t hS
    · exact sess_setTime cfg t0 st0 s t hS
  · exact hS

lemma sess_stepFire (cfg : Config) (t0 : JSNum) (st0 : Option String)
    (i : Nat) (s : GameState) (hI : InvCore cfg s) (hS : Sess cfg t0 st0 s) :
    Sess cfg t0 st0 (stepFire cfg i s) := by
  obtain ⟨hsm, hogo, hsc, hts, hst, hidxf, hcal1, hcal2⟩ := hS
  unfold stepFire
  cases hfind : s.pending.find? (fun p => decide (p.id = i)) with
  | none => exact ⟨hsm, hogo, hsc, hts, hst, hidxf, hcal1, hcal2⟩
  | some p =>
    dsimp only
    split
    · have hpmem : p ∈ s.pending := List.mem_of_find?_eq_some hfind
      cases hk : p.kind with
      | warn =>
        unfold runTimer
        rw [hk]
        dsimp only
        exact ⟨hsm, hogo, hsc, hts, hst, hidxf, hcal1, hcal2⟩
      | fall =>
        have hfall := hI.2.1 p hpmem hk
        have hidx : s.idx < cfg.maxAdvance := hfall.2.2.2
        have hlOn : s.listenerOn = true := by
          cases hlv : s.listenerOn with
          | true => rfl
          | false =>
            have := (hcal2 hlv).2
            omega
        have hcal : s.gameOverCalls = [] := hcal1 hlOn
        unfold runTimer
        rw [hk]
        dsimp only
        split
        · apply sess_nextLetter
          · exact hsm
          · exact hogo
          · exact hlOn
          · exact hsc
          · exact hts
          · exact hst
          · show s.idx + 1 = s.matchAdvances + (s.fallAdvances + 1)
            omega
          · exact hcal
          · exact hidx
        · apply sess_nextLetter
          · exact hsm
          · exact hogo
          · exact hlOn
          · exact hsc
          · exact hts
          · exact hst
          · show s.idx + 1 = s.matchAdvances + (s.fallAdvances + 1)
            omega
          · exact hcal
          · exact hidx
    · exact ⟨hsm, hogo, hsc, hts, hst, hidxf, hcal1, hcal2⟩

lemma sess_run (cfg : Config) (h1 : 1 ≤ cfg.maxAdvance) (t0 : JSNum)
    (st0 : Option String) :
    ∀ evs : List Ev, (∀ e ∈ evs, isKeyOrFire e = true) →
      ∀ s : GameState, InvCore cfg s → Sess cfg t0 st0 s →
        Sess cfg t0 st0 (run cfg s evs) := by
  intro evs
  induction evs with
  | nil =>
    intro _ s _ hS
    exact hS
  | cons e rest ih =>
    intro hkf s hI hS
    have hrest : ∀ e' ∈ rest, isKeyOrFire e' = true :=
      fun e' he' => hkf e' (List.mem_cons_of_mem _ he')
    have hke := hkf e (List.mem_cons_self _ _)
    cases e with
    | key t k =>
      exact ih hrest (stepEvent cfg s (Ev.key t k))
        (inv_stepEvent cfg h1 s _ hI) (sess_stepKey cfg t0 st0 t k s hI hS)
    | fire i =>
      exact ih hrest (stepEvent cfg s (Ev.fire i))
        (inv_stepEvent cfg h1 s _ hI) (sess_stepFire cfg t0 st0 i s hI hS)
    | start t sq => simp [isKeyOrFire] at hke
    | reset t => simp [isKeyOrFire] at hke

/-- The session invariant holds right after `start` on a fresh engine with an
attached score manager and a game-over callback. -/
lemma sess_started (cfg : Config) (storage0 : Option String) (seq : List Char) :
    Sess cfg (loadTotalScore storage0) storage0
      (stepEvent cfg (gameInit true true storage0) (Ev.start 0 seq)) := by
  show Sess cfg (loadTotalScore storage0) storage0
    (start cfg seq { gameInit true true storage0 with time := 0 })
  unfold start render
  dsimp only
  apply sess_startTimer
  refine ⟨rfl, rfl, ?_, ?_, fun _ => rfl, rfl, fun _ => rfl, fun hfalse => ?_⟩
  · show (0 : Int) = 10 * ((0 : Nat) : Int)
    norm_num
  · show loadTotalScore storage0 =
      jadd (loadTotalScore storage0) (JSNum.int (10 * ((0 : Nat) : Int)))
    rw [show (10 * ((0 : Nat) : Int)) = 0 by norm_num, jadd_int_zero]
  · exact absurd (show (true : Bool) = false from hfalse) (by decide)

lemma nextLetter_matchAdvances (cfg : Config) (s : GameState) :
    (nextLetter cfg s).matchAdvances = s.matchAdvances := by
  unfold nextLetter
  dsimp only
  split
  · unfold endGame
    dsimp only
    split
    · split
      · rfl
      · rfl
    · rfl
  · rw [startTimer_matchAdvances]

lemma stepFire_matchAdvances (cfg : Config) (i : Nat) (s : GameState) :
    (stepFire cfg i s).matchAdvances = s.matchAdvances := by
  unfold stepFire
  cases hfind : s.pending.find? (fun p => decide (p.id = i)) with
  | none => rfl
  | some p =>
    dsimp only
    split
    · cases hk : p.kind with
      | warn =>
        unfold runTimer
        rw [hk]
      | fall =>
        unfold runTimer
        rw [hk]
        dsimp only
        split
        · rw [nextLetter_matchAdvances]
        · rw [nextLetter_matchAdvances]
    · rfl

lemma fires_no_match (cfg : Config) :
    ∀ evs : List Ev, (∀ e ∈ evs, isFire e = true) →
      ∀ s : GameState, (run cfg s evs).matchAdvances = s.matchAdvances := by
  intro evs
  induction evs with
  | nil => intro _ s; rfl
  | cons e rest ih =>
    intro hf s
    have hrest : ∀ e' ∈ rest, isFire e' = true :=
      fun e' he' => hf e' (List.mem_cons_of_mem _ he')
    have hfe := hf e (List.mem_cons_self _ _)
    cases e with
    | fire i =>
      show (run cfg (stepFire cfg i s) rest).matchAdvances = s.matchAdvances
      rw [ih hrest (stepFire cfg i s), stepFire_matchAdvances]
    | key t k => simp [isFire] at hfe
    | start t sq => simp [isFire] at hfe
    | reset t => simp [isFire] at hfe

lemma started_matchAdvances (cfg : Config) (hO hS : Bool)
    (storage0 : Option String) (seq : List Char) :
    (stepEvent cfg (gameInit hO hS storage0) (Ev.start 0 seq)).matchAdvances = 0 := by
  show (startTimer cfg
    (clearRender { resetState { gameInit hO hS storage0 with time := 0 } with
      listenerOn := true, seq := seq,
      sessionCount := (resetState { gameInit hO hS storage0 with
        time := 0 }).sessionCount + 1 })).matchAdvances = 0
  rw [startTimer_matchAdvances]
  rfl

lemma nextLetter_score (cfg : Config) (s : GameState) :
    (nextLetter cfg s).score = s.score ∧
    (nextLetter cfg s).totalScore = s.totalScore ∧
    (nextLetter cfg s).storage = s.storage := by
  unfold nextLetter
  dsimp only
  split
  · unfold endGame
    dsimp only
    split
    · split
      · exact ⟨rfl, rfl, rfl⟩
      · exact ⟨rfl, rfl, rfl⟩
    · exact ⟨rfl, rfl, rfl⟩
  · exact ⟨by rw [startTimer_score], by rw [startTimer_totalScore],
      by rw [startTimer_storage]⟩

lemma stepFire_no_points (cfg : Config) (i : Nat) (s : GameState) :
    (stepFire cfg i s).score = s.score ∧
    (stepFire cfg i s).totalScore = s.totalScore ∧
    (stepFire cfg i s).storage = s.storage := by
  unfold stepFire
  cases hfind : s.pending.find? (fun p => decide (p.id = i)) with
  | none => exact ⟨rfl, rfl, rfl⟩
  | some p =>
    dsimp only
    split
    · cases hk : p.kind with
      | warn =>
        unfold runTimer
        rw [hk]
        exact ⟨rfl, rfl, rfl⟩
      | fall =>
        unfold runTimer
        rw [hk]
        dsimp only
        split
        · exact nextLetter_score cfg _
        · exact nextLetter_score cfg _
    · exact ⟨rfl, rfl, rfl⟩

/-! ## Claim C3 — session with every symbol matched before expiry -/

/-- The timer firings of a complete never-press session at the code's
configuration: for each of the seven positions, the warning timeout then the
fall (expiry) timeout, in deadline order (handles as allocated by the
engine). -/
def npFires : List Ev :=
  [Ev.fire 0, Ev.fire 1, Ev.fire 3, Ev.fire 4, Ev.fire 6, Ev.fire 7,
   Ev.fire 9, Ev.fire 10, Ev.fire 12, Ev.fire 13, Ev.fire 15, Ev.fire 16,
   Ev.fire 18, Ev.fire 19]

/-- Seven correct key presses, each well before any armed deadline. -/
def amKeys : List Ev :=
  [Ev.key 100 'a', Ev.key 200 'a', Ev.key 300 'a', Ev.key 400 'a',
   Ev.key 500 'a', Ev.key 600 'a', Ev.key 700 'a']

/-- C3: in a session (fresh engine with attached score manager and game-over
callback, started once, then driven by any sequence of key presses and timer
firings) in which no expiry ever advanced the cursor — i.e. the player
matched every symbol before its expiry deadline — if the game ended then the
game-over callback was invoked exactly once, with final session score
`10 × advanceLimit`, and the cumulative score moved by exactly the same
amount. -/
theorem c3_all_matched_score (cfg : Config) (h1 : 1 ≤ cfg.maxAdvance)
    (storage0 : Option String) (seq : List Char) (evs : List Ev)
    (hkf : ∀ e ∈ evs, isKeyOrFire e = true) :
    let sf := run cfg (gameInit true true storage0) (Ev.start 0 seq :: evs)
    sf.fallAdvances = 0 → sf.gameOverCalls ≠ [] →
    sf.gameOverCalls = [10 * (cfg.maxAdvance : Int)] ∧
    sf.score = 10 * (cfg.maxAdvance : Int) ∧
    sf.totalScore =
      jadd (loadTotalScore storage0) (JSNum.int (10 * (cfg.maxAdvance : Int))) := by
  intro sf hfall hcalls
  have hsf : sf = run cfg (stepEvent cfg (gameInit true true storage0)
      (Ev.start 0 seq)) evs := rfl
  have hI0 : InvCore cfg (stepEvent cfg (gameInit true true storage0)
      (Ev.start 0 seq)) :=
    inv_stepEvent cfg h1 _ _ (inv_gameInit cfg true true storage0)
  have hSf : Sess cfg (loadTotalScore storage0) storage0 sf := by
    rw [hsf]
    exact sess_run cfg h1 (loadTotalScore storage0) storage0 evs hkf _ hI0
      (sess_started cfg storage0 seq)
  obtain ⟨hsm, hogo, hsc, hts, hst, hidxf, hcal1, hcal2⟩ := hSf
  have hloff : sf.listenerOn = false := by
    cases hlv : sf.listenerOn with
    | false => rfl
    | true => exact absurd (hcal1 hlv) hcalls
  obtain ⟨hceq, hieq⟩ := hcal2 hloff
  have hmatch : sf.matchAdvances = cfg.maxAdvance := by
    rw [hfall] at hidxf
    omega
  rw [hmatch] at hceq hsc hts
  exact ⟨hceq, hsc, hts⟩

/-- C3 witness: the concrete all-matched session at the code's configuration:
`onGameOver` fires once with 70 = 10 × 7 and the session score is 70. -/
theorem c3_all_matched_score_witness :
    (run CONFIG (gameInit true true none) (Ev.start 0 seqA :: amKeys)).gameOverCalls =
      [10 * (CONFIG.maxAdvance : Int)] ∧
    (run CONFIG (gameInit true true none) (Ev.start 0 seqA :: amKeys)).score =
      10 * (CONFIG.maxAdvance : Int) :=
  ⟨(c3_all_matched_score CONFIG (by decide) none seqA amKeys (by decide)
      (by decide) (by decide)).1,
   (c3_all_matched_score CONFIG (by decide) none seqA amKeys (by decide)
      (by decide) (by decide)).2.1⟩

/-! ## Claim C4 — expiry advances without points -/

/-- C4: a timer firing (warning or expiry) never changes the session score,
the cumulative score, or the stored value; and in a session in which the
player never presses a key, the final session score is 0, the cumulative
score and stored value are unchanged, and the game-over callback is invoked
with 0 if the session ended (in the concrete never-press session at the
code's configuration it does end: `onGameOver` fires once with 0, every
warning repetition has been cancelled by its expiry, and the cursor stands at
the advance limit). -/
theorem c4_expiry_no_points (cfg : Config) (h1 : 1 ≤ cfg.maxAdvance)
    (storage0 : Option String) (seq : List Char) (evs : List Ev)
    (hf : ∀ e ∈ evs, isFire e = true) :
    (∀ (x : GameState) (i : Nat),
      (stepFire cfg i x).score = x.score ∧
      (stepFire cfg i x).totalScore = x.totalScore ∧
      (stepFire cfg i x).storage = x.storage) ∧
    (let sf := run cfg (gameInit true true storage0) (Ev.start 0 seq :: evs)
     sf.score = 0 ∧ sf.totalScore = loadTotalScore storage0 ∧
       sf.storage = storage0 ∧
       (sf.gameOverCalls = [] ∨ sf.gameOverCalls = [0])) ∧
    (let c := run CONFIG (gameInit true true none) (Ev.start 0 seqA :: npFires)
     c.gameOverCalls = [0] ∧ c.intervals = [] ∧ c.idx = 7 ∧ c.score = 0 ∧
       c.totalScore = JSNum.int 0 ∧ c.storage = none) := by
  refine ⟨fun x i => stepFire_no_points cfg i x, ?_, by decide⟩
  intro sf
  have hkf : ∀ e ∈ evs, isKeyOrFire e = true := by
    intro e he
    have hfe := hf e he
    cases e with
    | fire i => rfl
    | key t k => simp [isFire] at hfe
    | start t sq => simp [isFire] at hfe
    | reset t => simp [isFire] at hfe
  have hsf : sf = run cfg (stepEvent cfg (gameInit true true storage0)
      (Ev.start 0 seq)) evs := rfl
  have hI0 : InvCore cfg (stepEvent cfg (gameInit true true storage0)
      (Ev.start 0 seq)) :=
    inv_stepEvent cfg h1 _ _ (inv_gameInit cfg true true storage0)
  have hSf : Sess cfg (loadTotalScore storage0) storage0 sf := by
    rw [hsf]
    exact sess_run cfg h1 (loadTotalScore storage0) storage0 evs hkf _ hI0
      (sess_started cfg storage0 seq)
  have hm0 : sf.matchAdvances = 0 := by
    rw [hsf, fires_no_match cfg evs hf, started_matchAdvances]
  obtain ⟨hsm, hogo, hsc, hts, hst, hidxf, hcal1, hcal2⟩ := hSf
  rw [hm0] at hsc hts
  refine ⟨?_, ?_, hst hm0, ?_⟩
  · rw [hsc]
    norm_num
  · rw [hts, show (10 * ((0 : Nat) : Int)) = 0 by norm_num, jadd_int_zero]
  · cases hlv : sf.listenerOn with
    | true => exact Or.inl (hcal1 hlv)
    | false =>
      refine Or.inr ?_
      have := (hcal2 hlv).1
      rw [hm0] at this
      rw [this]
      norm_num

/-- C4 witness: the never-press session's outcome at the code's
configuration, obtained from the theorem. -/
theorem c4_expiry_no_points_witness :
    (run CONFIG (gameInit true true none) (Ev.start 0 seqA :: npFires)).score = 0 ∧
    ((run CONFIG (gameInit true true none)
        (Ev.start 0 seqA :: npFires)).gameOverCalls = [] ∨
     (run CONFIG (gameInit true true none)
        (Ev.start 0 seqA :: npFires)).gameOverCalls = [0]) :=
  ⟨(c4_expiry_no_points CONFIG (by decide) none seqA npFires (by decide)).2.1.1,
   (c4_expiry_no_points CONFIG (by decide) none seqA npFires (by decide)).2.1.2.2.2⟩

end UTG

